import Mathlib

/-!
Verification of the STF-to-JSON converter (stfjson.c) against its
natural-language specification.  The C source is shallowly embedded:
the chunk reader, the legacy date normalizer (a model of glibc
strptime/strftime restricted to the directives the program uses), the
category-link parser and the document-builder state machine of main()
are translated into executable Lean definitions, and the specification
claims are settled as theorems about those definitions.
-/

namespace Stfjson

/-- The characters C isspace() accepts in the C locale (ASCII). -/
def isSpaceC (c : Char) : Bool :=
  c = ' ' ∨ c = '\t' ∨ c = '\n' ∨ c = Char.ofNat 11 ∨ c = Char.ofNat 12 ∨ c = '\r'

/-- The NUL character, used to model C string termination / out-of-range reads. -/
def nulC : Char := Char.ofNat 0

/-- Numeric value of a list of decimal digit characters. -/
def digitsVal (l : List Char) : Nat :=
  l.foldl (fun a c => a * 10 + (c.toNat - 48)) 0

/-- Read up to `w` leading decimal digits (glibc get_number's digit scan). -/
def takeDigits : Nat → List Char → (List Char × List Char)
  | 0, l => ([], l)
  | _ + 1, [] => ([], [])
  | w + 1, c :: rest =>
    if c.isDigit then
      let (ds, r) := takeDigits w rest
      (c :: ds, r)
    else ([], c :: rest)

/-- glibc strptime's get_number: 1..w digits whose value lies in [lo, hi]. -/
def getNumber (lo hi w : Nat) (l : List Char) : Option (Nat × List Char) :=
  let (ds, r) := takeDigits w l
  if ds = [] then none
  else
    let v := digitsVal ds
    if lo ≤ v ∧ v ≤ hi then some (v, r) else none

/-- Broken-down time, the fields of struct tm the program reads and writes.
`year` is tm_year (years since 1900, may be negative), `mon` is tm_mon
(0-based month). -/
structure Tm where
  year : Int
  mon : Nat
  mday : Nat
  hour : Nat
  min : Nat
  sec : Nat
deriving DecidableEq

/-- struct tm parsed = {0}. -/
def tm0 : Tm := ⟨0, 0, 0, 0, 0, 0⟩

/-- One strptime format directive.  `ws` is a whitespace character in the
format (matches any run of input whitespace), `lit c` a literal character. -/
inductive Dir where
  | m | dd | y2 | Y4 | H | I | M | S | p | b | ws
  | lit (c : Char)
deriving DecidableEq

/-- Case-insensitive character equality. -/
def lowerEq (a b : Char) : Bool := a.toLower = b.toLower

/-- Case-insensitively match a pattern at the front of the input, returning
the rest of the input on success. -/
def matchCI : List Char → List Char → Option (List Char)
  | [], l => some l
  | _ :: _, [] => none
  | pc :: ps, c :: rest => if lowerEq pc c then matchCI ps rest else none

def monthFullNames : List (List Char) :=
  ["January".toList, "February".toList, "March".toList, "April".toList,
   "May".toList, "June".toList, "July".toList, "August".toList,
   "September".toList, "October".toList, "November".toList, "December".toList]

def monthAbbrevNames : List (List Char) :=
  ["Jan".toList, "Feb".toList, "Mar".toList, "Apr".toList, "May".toList,
   "Jun".toList, "Jul".toList, "Aug".toList, "Sep".toList, "Oct".toList,
   "Nov".toList, "Dec".toList]

/-- Try candidate month names (0-based month index paired with name). -/
def findMonth : List (Nat × List Char) → List Char → Option (Nat × List Char)
  | [], _ => none
  | (i, pat) :: cands, l =>
    match matchCI pat l with
    | some r => some (i, r)
    | none => findMonth cands l

/-- %b: month name, full names tried before abbreviations (glibc order). -/
def parseMonthName (l : List Char) : Option (Nat × List Char) :=
  match findMonth (monthFullNames.enum.map (fun x => (x.1, x.2))) l with
  | some r => some r
  | none => findMonth (monthAbbrevNames.enum.map (fun x => (x.1, x.2))) l

/-- Process one strptime directive: on success the updated tm and remaining
input.  Models glibc behaviour for the directives the format table uses. -/
def parseDir (t : Tm) (d : Dir) (l : List Char) : Option (Tm × List Char) :=
  match d with
  | .m => (getNumber 1 12 2 l).map (fun x => ({ t with mon := x.1 - 1 }, x.2))
  | .dd => (getNumber 1 31 2 l).map (fun x => ({ t with mday := x.1 }, x.2))
  | .y2 =>
    (getNumber 0 99 2 l).map
      (fun x => ({ t with year := if x.1 ≥ 69 then (x.1 : Int) else (x.1 : Int) + 100 }, x.2))
  | .Y4 => (getNumber 0 9999 4 l).map (fun x => ({ t with year := (x.1 : Int) - 1900 }, x.2))
  | .H => (getNumber 0 23 2 l).map (fun x => ({ t with hour := x.1 }, x.2))
  | .I => (getNumber 1 12 2 l).map (fun x => ({ t with hour := x.1 % 12 }, x.2))
  | .M => (getNumber 0 59 2 l).map (fun x => ({ t with min := x.1 }, x.2))
  | .S => (getNumber 0 61 2 l).map (fun x => ({ t with sec := x.1 }, x.2))
  | .p =>
    match matchCI "AM".toList l with
    | some r => some (t, r)
    | none =>
      match matchCI "PM".toList l with
      | some r => some ({ t with hour := t.hour + 12 }, r)
      | none => none
  | .b => (parseMonthName l).map (fun x => ({ t with mon := x.1 }, x.2))
  | .ws => some (t, l.dropWhile isSpaceC)
  | .lit c =>
    match l with
    | [] => none
    | x :: rest => if x = c then some (t, rest) else none

/-- Run strptime over a directive list.  Returns the tm holding every field
assigned so far together with the remaining input on success, or, after a
failing directive, the partially updated tm and `none` (glibc returns NULL
but leaves the already-assigned tm fields in place). -/
def strptimeList : List Dir → Tm → List Char → Tm × Option (List Char)
  | [], t, l => (t, some l)
  | d :: ds, t, l =>
    match parseDir t d l with
    | none => (t, none)
    | some (t', l') => strptimeList ds t' l'

/-- The strptime pattern of the STF header check, "%D;%T;002" expanded
(%D = %m/%d/%y, %T = %H:%M:%S). -/
def fmtHeader : List Dir :=
  [.m, .lit '/', .dd, .lit '/', .y2, .lit ';', .H, .lit ':', .M, .lit ':', .S,
   .lit ';', .lit '0', .lit '0', .lit '2']

/-- kLotusDateFmt: the 12-entry legacy date format table (index 0 is the
unused NULL slot, modelled as the empty pattern). -/
def kLotusDateFmt : List (List Dir) :=
  [ [],
    [.m, .lit '/', .dd, .lit '/', .Y4, .ws, .H, .lit ':', .M],       -- 1: %m/%d/%Y %H:%M
    [.m, .lit '/', .dd, .lit '/', .Y4, .ws, .H, .lit ':', .M],       -- 2: %m/%d/%Y %H:%M
    [.dd, .lit '.', .m, .lit '.', .Y4, .ws, .H, .lit ':', .M],       -- 3: %d.%m.%Y %H:%M
    [.Y4, .lit '-', .m, .lit '-', .dd, .ws, .H, .lit ':', .M],       -- 4: %Y-%m-%d %H:%M
    [.dd, .lit '-', .b, .ws, .H, .lit ':', .M],                      -- 5: %d-%b %H:%M
    [.dd, .lit '-', .b, .lit '-', .Y4, .ws, .H, .lit ':', .M],       -- 6: %d-%b-%Y %H:%M
    [.m, .lit '/', .dd, .lit '/', .Y4, .ws, .I, .lit ':', .M, .p],   -- 7: %m/%d/%Y %I:%M%p
    [.dd, .lit '/', .m, .lit '/', .Y4, .ws, .I, .lit ':', .M, .p],   -- 8: %d/%m/%Y %I:%M%p
    [.dd, .lit '.', .m, .lit '.', .Y4, .ws, .I, .lit ':', .M, .p],   -- 9: %d.%m.%Y %I:%M%p
    [.Y4, .lit '-', .m, .lit '-', .dd, .ws, .I, .lit ':', .M, .p],   -- 10: %Y-%m-%d %I:%M%p
    [.dd, .lit '-', .b, .ws, .I, .lit ':', .M, .p],                  -- 11: %d-%b %I:%M%p
    [.dd, .lit '-', .b, .lit '-', .Y4, .ws, .I, .lit ':', .M, .p] ]  -- 12: %d-%b-%Y %I:%M%p

/-- Render a natural number zero-padded to two digits (strftime %m %d %H %M %S). -/
def pad2 (n : Nat) : List Char :=
  if n < 10 then '0' :: Nat.toDigits 10 n else Nat.toDigits 10 n

/-- strftime %Y: tm_year + 1900, printed as a decimal integer. -/
def renderYear (y : Int) : List Char :=
  let n : Int := 1900 + y
  if n < 0 then '-' :: Nat.toDigits 10 n.natAbs else Nat.toDigits 10 n.toNat

/-- Render a tm with the JSON_DATE_FORMAT pattern "%Y-%m-%dT%H:%M:%SZ". -/
def renderJsonDate (t : Tm) : List Char :=
  renderYear t.year ++ '-' :: pad2 (t.mon + 1) ++ '-' :: pad2 t.mday ++
  'T' :: pad2 t.hour ++ ':' :: pad2 t.min ++ ':' :: pad2 t.sec ++ ['Z']

/-- strftime into the program's char timestamp[128]: returns 0 (modelled as
`none`) iff the rendering including its terminator does not fit. -/
def strftimeJson (t : Tm) : Option (List Char) :=
  let s := renderJsonDate t
  if s.length + 1 ≤ 128 then some s else none

/-! ## The chunk reader (read_stf_chunk) -/

/-- A chunk as produced by read_stf_chunk: tag and value are `none` exactly
when the corresponding C out-pointer is left NULL. -/
structure Chunk where
  tag : Option (List Char)
  value : Option (List Char)
deriving DecidableEq

/-- Trailing-whitespace trim applied to a chunk value when the next tag opens. -/
def trimTrailing (l : List Char) : List Char :=
  (l.reverse.dropWhile isSpaceC).reverse

/-- Build the chunk returned when the reader reaches its END state from
DATA: value stays NULL if no byte was ever stored, otherwise it is the
accumulated bytes with trailing whitespace trimmed. -/
def mkChunk (tag : Option (List Char)) (val : List Char) : Chunk :=
  { tag := tag, value := if val = [] then none else some (trimTrailing val) }

/-- The reader's DATA state: accumulate value bytes; a '{' followed by the
escape byte ' ' is a literal '{'; any other '{' ends the chunk with the
'{' and its lookahead byte pushed back; leading whitespace is discarded;
end of stream inside DATA is the -1 (failed chunk) result. -/
def readData (tag : Option (List Char)) (val : List Char) :
    List Char → Option (Chunk × List Char)
  | [] => none
  | c :: rest =>
    if c = '{' then
      match rest with
      | [] => some (mkChunk tag val, c :: rest)
      | c2 :: rest2 =>
        if c2 = ' ' then readData tag (val ++ ['{']) rest2
        else some (mkChunk tag val, c :: rest)
    else if isSpaceC c ∧ val = [] then readData tag val rest
    else readData tag (val ++ [c]) rest

/-- The reader's TAG state: accumulate the tag name up to '}'.  An empty
name is a non-fatal warning and the tag pointer stays NULL; the five
terminator tags end the chunk with no value; otherwise switch to DATA. -/
def readTag (acc : List Char) : List Char → Option (Chunk × List Char)
  | [] => none
  | c :: rest =>
    if c = '}' then
      if acc = [] then readData none [] rest
      else if acc = [';'] ∨ acc = ['+'] ∨ acc = ['-'] ∨ acc = ['.'] ∨ acc = ['!'] then
        some ({ tag := some acc, value := none }, rest)
      else readData (some acc) [] rest
    else readTag (acc ++ [c]) rest

/-- The reader's COMMENT start state: skip whitespace; '{' opens a tag;
any other byte synthesizes the implicit "S" comment tag and becomes the
first data byte. -/
def readComment : List Char → Option (Chunk × List Char)
  | [] => none
  | c :: rest =>
    if isSpaceC c then readComment rest
    else if c = '{' then readTag [] rest
    else readData (some ['S']) [c] rest

/-- read_stf_chunk over the remaining input: `none` is the -1 return
(stream ended before the chunk reached END), otherwise the chunk and the
input left for the next call (the up-to-two pushed-back bytes included). -/
def read_stf_chunk (l : List Char) : Option (Chunk × List Char) :=
  readComment l

/-! ## The category link parser (parse_item_category) -/

inductive LinkType where
  | standard | exclusive | date | unindexed | numeric
deriving DecidableEq

/-- The JSON object built per link: name, optional shortname, optional
alsomatch alias array, optional value (dates only). -/
structure Link where
  type : LinkType
  name : List Char
  shortname : Option (List Char)
  alsomatch : Option (List (List Char))
  value : Option (List Char)
deriving DecidableEq

/-- strstr for a two-character needle: index of its first occurrence. -/
def findSub2 (a b : Char) : List Char → Option Nat
  | [] => none
  | x :: rest =>
    match rest with
    | [] => none
    | y :: _ =>
      if x = a ∧ y = b then some 0
      else (findSub2 a b rest).map (· + 1)

/-- The type-determination chain of parse_item_category: the trailing
character (with a one-character '%' lookbehind) selects standard /
exclusive / unindexed, then strstr looks for "@|" and "#|".  Returns the
type, the names portion (strndup up to the marker) and, for the strstr
cases, the value portion (two characters past the match).  `none` covers
both errx sites: a definition shorter than two characters and an
unclassifiable definition. -/
def classifyLink (d : List Char) : Option (LinkType × List Char × Option (List Char)) :=
  let len := d.length
  if len < 2 then none
  else
    let a := d.getD (len - 1) nulC
    let b := d.getD (len - 2) nulC
    if a = '\\' ∧ b ≠ '%' then some (.standard, d.take (len - 1), none)
    else if a = '/' ∧ b ≠ '%' then some (.exclusive, d.take (len - 1), none)
    else if a = '|' ∧ b ≠ '%' ∧ b ≠ '@' ∧ b ≠ '#' then some (.unindexed, d.take (len - 1), none)
    else
      match findSub2 '@' '|' d with
      | some i => some (.date, d.take i, some (d.drop (i + 2)))
      | none =>
        match findSub2 '#' '|' d with
        | some i => some (.numeric, d.take i, some (d.drop (i + 2)))
        | none => none

/-- The link type parse_item_category assigns, `none` when it errx's. -/
def classifyType (d : List Char) : Option LinkType :=
  (classifyLink d).map (fun x => x.1)

/-- Split on ';' keeping empty fields (the raw cut points). -/
def splitSemi : List Char → List (List Char)
  | [] => [[]]
  | c :: rest =>
    let r := splitSemi rest
    if c = ';' then [] :: r
    else
      match r with
      | h :: t => (c :: h) :: t
      | [] => [[c]]

/-- The successive strtok(·, ";") results: the non-empty ';'-fields in order. -/
def tokenize (l : List Char) : List (List Char) :=
  (splitSemi l).filter (fun t => t ≠ [])

/-- The escape-removal loop of parse_item_category, verbatim:
p is the write index into the buffer (a copy of the value), characters are
copied one by one, a written '%' does not advance p (so the next character
overwrites it), and after each step the character at the new write position
is compared against ';' to move the result start past it.  Returns the
final buffer, the index where the terminating NUL is written, and the
result start index. -/
def cUnescapeLoop : List Char → List Char → Nat → Nat → (List Char × Nat × Nat)
  | [], buf, p, s => (buf, p, s)
  | c :: rest, buf, p, s =>
    let buf' := buf.set p c
    let p' := if c = '%' then p else p + 1
    let s' := if buf'.getD p' nulC = ';' then p' + 1 else s
    cUnescapeLoop rest buf' p' s'

/-- The value handed to strptime: run the loop over a copy of the value
portion and take the buffer between the result start and the written NUL. -/
def cUnescapeExtract (v : List Char) : List Char :=
  let r := cUnescapeLoop v (v ++ [nulC]) 0 0
  (r.1.take r.2.1).drop r.2.2

/-- parse_item_category on a link definition with the active date format
index: `none` is any of its errx exits, otherwise the link object added
to the item's category array. -/
def parse_item_category (dateformat : Nat) (d : List Char) : Option Link :=
  match classifyLink d with
  | none => none
  | some (ty, names, valuePortion) =>
    match tokenize names with
    | [] => none
    | nm :: restTok =>
      let base : Link :=
        { type := ty, name := nm, shortname := restTok.head?,
          alsomatch := if restTok.drop 1 = [] then none else some (restTok.drop 1),
          value := none }
      match valuePortion with
      | none => some base
      | some vp =>
        let unescaped := cUnescapeExtract vp
        match ty with
        | .date =>
          let parsed := (strptimeList (kLotusDateFmt.getD dateformat []) tm0 unescaped).1
          match strftimeJson parsed with
          | none => none
          | some ts => some { base with value := some ts }
        | _ => none

/-! ## The document builder (the state machine of main) -/

/-- The STF_STATE_* enum.  `noteSt` is the declared-but-unreachable
STF_STATE_NOTE, which main's default arm treats as fatal. -/
inductive BState where
  | initial | root | category | catCond | catActions | item | noteSt
deriving DecidableEq

/-- An assignment-options object: the include and exclude arrays. -/
structure CondSet where
  incl : List (Option (List Char))
  excl : List (Option (List Char))
deriving DecidableEq

/-- A category object: name, attribute array, optional note, optional
conditions and actions sets. -/
structure CategoryR where
  name : Option (List Char)
  attributes : List (Option (List Char))
  note : Option (List Char)
  conditions : Option CondSet
  actions : Option CondSet
deriving DecidableEq

/-- An item object: category-link array, optional text and note. -/
structure ItemR where
  categories : List Link
  text : Option (List Char)
  note : Option (List Char)
deriving DecidableEq

/-- One STF file object: header timestamp, categories array, items array. -/
structure FileRec where
  timestamp : List Char
  categories : List CategoryR
  items : List ItemR
deriving DecidableEq

/-- The builder's mutable state: the state-machine state, the current
date format index, and the root array.  The current file / category /
item pointers of the C code always reference the most recently appended
element, so they are represented by in-place updates of the last element. -/
structure Cfg where
  state : BState
  dateformat : Nat
  root : List FileRec
deriving DecidableEq

/-- main's initial state: STF_STATE_NONE, dateformat 1, empty root array. -/
def initCfg : Cfg := ⟨.initial, 1, []⟩

/-- Apply f to the last element of a list (the object the current-object
pointer references); identity on the empty list. -/
def updateLast (f : α → α) : List α → List α
  | [] => []
  | [x] => [f x]
  | x :: rest => x :: updateLast f rest

/-- Update the current (last) file. -/
def updFile (f : FileRec → FileRec) (cfg : Cfg) : Cfg :=
  { cfg with root := updateLast f cfg.root }

/-- Update the current category (last category of the last file). -/
def updCat (f : CategoryR → CategoryR) (cfg : Cfg) : Cfg :=
  updFile (fun fr => { fr with categories := updateLast f fr.categories }) cfg

/-- Update the current item (last item of the last file). -/
def updItem (f : ItemR → ItemR) (cfg : Cfg) : Cfg :=
  updFile (fun fr => { fr with items := updateLast f fr.items }) cfg

/-- Update the active assignment-options set: the conditions of the
current category in CATEGORY_COND, its actions in CATEGORY_ACTIONS. -/
def updSet (f : CondSet → CondSet) (cfg : Cfg) : Cfg :=
  if cfg.state = .catCond then
    updCat (fun c => { c with conditions := c.conditions.map f }) cfg
  else
    updCat (fun c => { c with actions := c.actions.map f }) cfg

/-- strtoul(value, NULL, 10): skip leading whitespace, read decimal
digits, 0 when there are none. -/
def strtoulDec (l : List Char) : Nat :=
  digitsVal ((l.dropWhile isSpaceC).takeWhile Char.isDigit)

/-- The STF header handler (the STF_STATE_NONE arm): parse the header
timestamp against "%D;%T;002" (checked), render it, and append a fresh
file object; `none` is the errx exit. -/
def headerHandle (cfg : Cfg) : Option (List Char) → Option Cfg
  | none => none
  | some val =>
    match strptimeList fmtHeader tm0 val with
    | (t, some _) =>
      match strftimeJson t with
      | none => none
      | some ts =>
        some { cfg with state := .root, root := cfg.root ++ [⟨ts, [], []⟩] }
    | (_, none) => none

/-- One dispatch of a non-comment chunk by main's switch, including the
extra lookahead chunk the CATEGORY r arm and the CATEGORY_COND /
CATEGORY_ACTIONS C arms read from the stream.  `none` is any errx exit;
otherwise the updated builder state and the input left unconsumed. -/
def dispatch (cfg : Cfg) (ch : Chunk) (rest : List Char) : Option (Cfg × List Char) :=
  match cfg.state with
  | .initial =>
    if ch.tag = some "STF".toList then (headerHandle cfg ch.value).map (fun c => (c, rest))
    else none
  | .root =>
    if ch.tag = some ['d'] then
      match ch.value with
      | none => none
      | some v =>
        let n := strtoulDec v
        if n < 1 ∨ 12 < n then none else some ({ cfg with dateformat := n }, rest)
    else if ch.tag = some ['C'] then
      some ((updFile (fun fr => { fr with categories := fr.categories ++ [⟨ch.value, [], none, none, none⟩] })
              { cfg with state := .category }), rest)
    else if ch.tag = some ['I'] then
      some ((updFile (fun fr => { fr with items := fr.items ++ [⟨[], none, none⟩] })
              { cfg with state := .item }), rest)
    else if ch.tag = some "STF".toList then
      -- goto reparse with state = STF_STATE_NONE: the NONE arm runs on this chunk
      (headerHandle cfg ch.value).map (fun c => (c, rest))
    else none
  | .category =>
    if ch.tag = some ['r'] then
      let cfg' := updCat (fun c => { c with attributes := c.attributes ++ [ch.value] }) cfg
      match read_stf_chunk rest with
      | none => none
      | some (ch2, rest2) =>
        if ch2.tag = some [';'] ∧ ch2.value = none then some (cfg', rest2) else none
    else if ch.tag = some ['.'] then some ({ cfg with state := .root }, rest)
    else if ch.tag = some ['F'] then
      some (updCat (fun c => { c with note := ch.value }) cfg, rest)
    else if ch.tag = some ['p'] then
      some (updCat (fun c => { c with conditions := some ⟨[], []⟩ }) { cfg with state := .catCond }, rest)
    else if ch.tag = some ['a'] then
      some (updCat (fun c => { c with actions := some ⟨[], []⟩ }) { cfg with state := .catActions }, rest)
    else none
  | .catCond | .catActions =>
    if ch.tag = some ['C'] then
      match read_stf_chunk rest with
      | none => none
      | some (ch2, rest2) =>
        if ch2.tag = some ['+'] then some (updSet (fun s => { s with incl := s.incl ++ [ch.value] }) cfg, rest2)
        else if ch2.tag = some ['-'] then some (updSet (fun s => { s with excl := s.excl ++ [ch.value] }) cfg, rest2)
        else none
    else if ch.tag = some [';'] then some ({ cfg with state := .category }, rest)
    else none
  | .item =>
    if ch.tag = some ['T'] then some (updItem (fun i => { i with text := ch.value }) cfg, rest)
    else if ch.tag = some ['N'] then some (updItem (fun i => { i with note := ch.value }) cfg, rest)
    else if ch.tag = some ['C'] then
      match ch.value with
      | none => none
      | some v =>
        match parse_item_category cfg.dateformat v with
        | none => none
        | some link =>
          some (updItem (fun i => { i with categories := i.categories ++ [link] }) cfg, rest)
    else if ch.tag = some ['.'] then some (cfg, rest)
    else if ch.tag = some ['!'] then some ({ cfg with state := .root }, rest)
    else none
  | .noteSt => none

/-- main's read loop, fuelled (every successful chunk consumes at least
one input character, so `input length + 1` fuel always suffices).  The
result is the process exit status together with the rendered document:
when read_stf_chunk reports -1 the loop ends, the root array is printed
and the exit status is 0; every errx exit gives status 1 and no output.
Chunks whose tag is "S" are reported to stderr and skipped. -/
def runLoopF : Nat → List Char → Cfg → Nat × Option (List FileRec)
  | 0, _, _ => (1, none)
  | n + 1, l, cfg =>
    match read_stf_chunk l with
    | none => (0, some cfg.root)
    | some (ch, rest) =>
      if ch.tag = some ['S'] then runLoopF n rest cfg
      else
        match dispatch cfg ch rest with
        | none => (1, none)
        | some (cfg', rest') => runLoopF n rest' cfg'

/-- The whole program on a given standard input. -/
def runMain (l : List Char) : Nat × Option (List FileRec) :=
  runLoopF (l.length + 1) l initCfg

/-! ## Specification-side definitions

These follow the wording of the specification claims (not the source) and
exist to be compared against the source-derived definitions above. -/

/-- Spec reading of "unescaped trailing marker" under the %-escape rule:
the last character is the marker and the run of '%' immediately before it
has even length (so the marker is not a literal). -/
def endsUnescapedPar (c : Char) (l : List Char) : Bool :=
  match l.reverse with
  | [] => false
  | a :: rest => (a == c) && ((rest.takeWhile (fun x => x == '%')).length % 2 == 0)

/-- Spec reading of the escape-removal pass: scan left to right, each '%'
is consumed without being copied and the character after it is copied
verbatim. -/
def specUnescape : List Char → List Char
  | [] => []
  | c :: rest =>
    if c = '%' then
      match rest with
      | [] => []
      | c2 :: rest2 => c2 :: specUnescape rest2
    else c :: specUnescape rest

/-- Spec reading of the date-text isolation: the content after the last
';' in the unescaped buffer, or the whole buffer when it has none. -/
def specExtract (v : List Char) : List Char :=
  ((specUnescape v).reverse.takeWhile (fun c => c != ';')).reverse

/-- Index of the last ';' in a list. -/
def lastSemiPos : List Char → Option Nat
  | [] => none
  | c :: r =>
    match lastSemiPos r with
    | some i => some (i + 1)
    | none => if c = ';' then some 0 else none

/-- What the escape-removal loop actually computes on escape-free input:
the content after the last ';' that has a predecessor character (a ';' in
the very first position is never detected), or the whole portion. -/
def amendedExtract (v : List Char) : List Char :=
  match v with
  | [] => []
  | _ :: t =>
    match lastSemiPos t with
    | some i => v.drop (i + 2)
    | none => v

/-- Time-of-day directives of a format (including the date/time separator). -/
def timeDir : Dir → Bool
  | .H | .I | .M | .S | .p | .ws => true
  | .lit c => c = ':'
  | _ => false

/-- The date layout of a format: its directives with the time part removed. -/
def dateLayout (f : List Dir) : List Dir :=
  f.filter (fun d => !timeDir d)

/-! ## Helper lemmas for the escape-removal loop -/

/-- Replay of the loop's result-start evolution on escape-free input:
processing the character at index `base` inspects the character at index
`base + 1` (the head of the remaining input). -/
def sSpec (base : Nat) : List Char → Nat → Nat
  | [], s => s
  | _ :: r', s => sSpec (base + 1) r' (if r'.headD nulC = ';' then base + 2 else s)

theorem set_append_len (pre : List Char) (c c' : Char) (t : List Char) :
    (pre ++ c :: t).set pre.length c' = pre ++ c' :: t := by
  induction pre with
  | nil => rfl
  | cons x xs ih => simp [ih]

theorem getD_append_len_succ (pre : List Char) (c : Char) (t : List Char) (d : Char) :
    (pre ++ c :: t).getD (pre.length + 1) d = t.headD d := by
  induction pre with
  | nil =>
    cases t with
    | nil => rfl
    | cons y ys => rfl
  | cons x xs ih => simpa using ih

theorem headD_append_nul (r : List Char) :
    (r ++ [nulC]).headD nulC = r.headD nulC := by
  cases r with
  | nil => rfl
  | cons c t => rfl

theorem nulC_ne_semi : ¬ (nulC = ';') := by decide

/-- On escape-free input the loop writes every character back where it
came from, so the buffer never changes, the write index tracks the read
index, and the result start evolves as `sSpec`. -/
theorem cUnescapeLoop_noesc (r : List Char) (h : '%' ∉ r) :
    ∀ (pre : List Char) (s : Nat),
      cUnescapeLoop r (pre ++ (r ++ [nulC])) pre.length s =
        (pre ++ (r ++ [nulC]), pre.length + r.length, sSpec pre.length r s) := by
  induction r with
  | nil => intro pre s; simp [cUnescapeLoop, sSpec]
  | cons c r' ih =>
    intro pre s
    have hc : ¬ (c = '%') := fun hcc => h (by simp [hcc])
    have hr' : '%' ∉ r' := fun hm => h (List.mem_cons_of_mem _ hm)
    show cUnescapeLoop (c :: r') (pre ++ c :: (r' ++ [nulC])) pre.length s =
      (pre ++ c :: (r' ++ [nulC]), pre.length + (c :: r').length, sSpec pre.length (c :: r') s)
    have hbuf : (pre ++ c :: (r' ++ [nulC])).set pre.length c = pre ++ c :: (r' ++ [nulC]) :=
      set_append_len pre c c (r' ++ [nulC])
    have hget : (pre ++ c :: (r' ++ [nulC])).getD (pre.length + 1) nulC = r'.headD nulC := by
      rw [getD_append_len_succ pre c (r' ++ [nulC]) nulC, headD_append_nul]
    simp only [cUnescapeLoop, hbuf, if_neg hc, hget]
    have hrw : pre ++ c :: (r' ++ [nulC]) = (pre ++ [c]) ++ (r' ++ [nulC]) := by
      simp
    have hlen : pre.length + 1 = (pre ++ [c]).length := by simp
    rw [hrw, hlen, ih hr' (pre ++ [c])]
    have h1 : (pre ++ [c]) ++ (r' ++ [nulC]) = pre ++ c :: (r' ++ [nulC]) := by simp
    have h2 : (pre ++ [c]).length + r'.length = pre.length + (c :: r').length := by
      simp only [List.length_append, List.length_cons, List.length_nil]
      omega
    have h3 : sSpec (pre ++ [c]).length r'
          (if r'.headD nulC = ';' then (pre ++ [c]).length + 1 else s) =
        sSpec pre.length (c :: r') s := by
      simp only [sSpec, List.length_append, List.length_cons, List.length_nil]
    rw [h1, h2, h3]

/-- `sSpec` computes the position just past the last detected ';' (the
last ';' of the tail), or leaves the start unchanged. -/
theorem sSpec_eq (r' : List Char) : ∀ (base : Nat) (c : Char) (s : Nat),
    sSpec base (c :: r') s =
      (match lastSemiPos r' with
       | some i => base + i + 2
       | none => s) := by
  induction r' with
  | nil =>
    intro base c s
    simp [sSpec, lastSemiPos, List.headD, nulC_ne_semi]
  | cons c2 r'' ih =>
    intro base c s
    have step : sSpec base (c :: c2 :: r'') s =
        sSpec (base + 1) (c2 :: r'') (if c2 = ';' then base + 2 else s) := by
      simp [sSpec, List.headD]
    rw [step, ih (base + 1) c2 (if c2 = ';' then base + 2 else s)]
    cases hl : lastSemiPos r'' with
    | some i => simp [lastSemiPos, hl]; omega
    | none =>
      by_cases hc2 : c2 = ';'
      · simp [lastSemiPos, hl, hc2]
      · simp [lastSemiPos, hl, hc2]

/-- headerHandle never touches the dateformat field. -/
theorem headerHandle_dateformat (cfg : Cfg) (v : Option (List Char)) (c' : Cfg)
    (h : headerHandle cfg v = some c') : c'.dateformat = cfg.dateformat := by
  cases v with
  | none => exact Option.noConfusion h
  | some val =>
    simp only [headerHandle] at h
    split at h
    · split at h
      · exact Option.noConfusion h
      · injection h with h1
        rw [← h1]
    · exact Option.noConfusion h

/-! ## Claim C1 -/

/-- Claim C1, counterexample: on a truncated input, an open brace followed by T (the stream ends
inside an open tag after two bytes were consumed) the program does NOT
fail: read_stf_chunk returns -1, main's loop simply ends, the (empty)
document is printed and the exit status is 0 — contradicting the claimed
LexError with non-zero exit and no output. -/
theorem c1_counterexample : runMain "\x7bT".toList = (0, some []) := by decide

/-- Claim C1, amended: read_stf_chunk reports end-of-stream and a
truncated chunk with the same -1 result, and main's loop treats any -1
as end of input: it stops, prints the document built so far and exits 0,
whether or not bytes were consumed since the last complete chunk. -/
theorem c1_amended_thm (n : Nat) (l : List Char) (cfg : Cfg)
    (h : read_stf_chunk l = none) :
    runLoopF (n + 1) l cfg = (0, some cfg.root) := by
  simp only [runLoopF, h]

/-- Claim C1, witness: the amended theorem applied to the truncated
truncated open-tag input from the initial state. -/
theorem c1_witness : runLoopF 1 "\x7bT".toList initCfg = (0, some []) :=
  c1_amended_thm 0 "\x7bT".toList initCfg (by decide)

/-! ## Claim C2 -/

/-- Claim C2 (code bug): for the date-typed link "X@|garbage" under
format index 1, strptime fails (returns NULL, second component none),
but parse_item_category ignores that result and renders the untouched
zeroed struct tm, emitting the value "1900-01-00T00:00:00Z" instead of
aborting with a DateFormatError as the specification requires. -/
theorem c2_code_eval :
    (strptimeList (kLotusDateFmt.getD 1 []) tm0 "garbage".toList).2 = none ∧
    parse_item_category 1 "X@|garbage".toList =
      some ⟨.date, ['X'], none, none, some "1900-01-00T00:00:00Z".toList⟩ := by
  decide

/-! ## Claim C3 -/

/-- Claim C3, counterexample: a first FileRecord sets the format index to
3 with a d tag; the second concatenated FileRecord then parses its date
link "X@|05.10.2020 14:30" with format 3 (DD.MM.YYYY, value
2020-10-05T14:30:00Z), which differs from what format 1 would give — so
the index is NOT reset to 1 at the start of every FileRecord. -/
theorem c3_counterexample :
    runMain "{STF}10/05/20;08:00:00;002{d}3{STF}11/06/20;09:00:00;002{I}{C}X@|05.10.2020 14:30{!}".toList =
      (0, some [⟨"2020-10-05T08:00:00Z".toList, [], []⟩,
                ⟨"2020-11-06T09:00:00Z".toList, [],
                 [⟨[⟨.date, ['X'], none, none, some "2020-10-05T14:30:00Z".toList⟩], none, none⟩]⟩]) ∧
    parse_item_category 1 "X@|05.10.2020 14:30".toList ≠
      parse_item_category 3 "X@|05.10.2020 14:30".toList := by
  decide

/-- Claim C3, amended: the date-format index is process-scoped, not
FileRecord-scoped: it is 1 at program start, and dispatching an STF
header chunk (opening a new FileRecord) leaves the active index exactly
as it was, so a d-tag change in one file carries into the next. -/
theorem c3_amended_thm :
    initCfg.dateformat = 1 ∧
    ∀ (cfg : Cfg) (v : Option (List Char)) (rest : List Char) (cfg' : Cfg) (rest' : List Char),
      dispatch cfg ⟨some "STF".toList, v⟩ rest = some (cfg', rest') →
      cfg'.dateformat = cfg.dateformat := by
  refine ⟨rfl, ?_⟩
  intro cfg v rest cfg' rest' h
  obtain ⟨st, df, rt⟩ := cfg
  cases st
  case initial =>
    have e : dispatch ⟨.initial, df, rt⟩ ⟨some "STF".toList, v⟩ rest =
        (headerHandle ⟨.initial, df, rt⟩ v).map (fun c => (c, rest)) := rfl
    rw [e] at h
    cases hh : headerHandle ⟨.initial, df, rt⟩ v with
    | none => rw [hh] at h; exact Option.noConfusion h
    | some c2 =>
      rw [hh] at h
      simp only [Option.map_some'] at h
      injection h with h1
      injection h1 with ha hb
      rw [← ha]
      exact headerHandle_dateformat ⟨.initial, df, rt⟩ v c2 hh
  case root =>
    have e : dispatch ⟨.root, df, rt⟩ ⟨some "STF".toList, v⟩ rest =
        (headerHandle ⟨.root, df, rt⟩ v).map (fun c => (c, rest)) := rfl
    rw [e] at h
    cases hh : headerHandle ⟨.root, df, rt⟩ v with
    | none => rw [hh] at h; exact Option.noConfusion h
    | some c2 =>
      rw [hh] at h
      simp only [Option.map_some'] at h
      injection h with h1
      injection h1 with ha hb
      rw [← ha]
      exact headerHandle_dateformat ⟨.root, df, rt⟩ v c2 hh
  case category => exact Option.noConfusion h
  case catCond => exact Option.noConfusion h
  case catActions => exact Option.noConfusion h
  case item => exact Option.noConfusion h
  case noteSt => exact Option.noConfusion h

/-- Claim C3, witness: the amended theorem applied to a builder in ROOT
with format index 3 receiving a valid STF header: the new FileRecord
still sees index 3. -/
theorem c3_witness :
    (Cfg.mk .root 3 [⟨"2020-10-05T08:00:00Z".toList, [], []⟩]).dateformat =
      (Cfg.mk .root 3 []).dateformat :=
  c3_amended_thm.2 (Cfg.mk .root 3 []) (some "10/05/20;08:00:00;002".toList) []
    (Cfg.mk .root 3 [⟨"2020-10-05T08:00:00Z".toList, [], []⟩]) [] (by decide)

/-! ## Claim C4 -/

/-- Claim C4, counterexample: format-table entry 8 does not have the same
date layout as entry 2: entry 2 is %m/%d/%Y but entry 8 is %d/%m/%Y, so
the same date text "10/05/2020" parses as month 10 / day 5 under entry 2
and day 10 / month 5 under entry 8. -/
theorem c4_counterexample :
    dateLayout (kLotusDateFmt.getD 8 []) ≠ dateLayout (kLotusDateFmt.getD 2 []) ∧
    (strptimeList (kLotusDateFmt.getD 2 []) tm0 "10/05/2020 14:30".toList).1.mon = 9 ∧
    (strptimeList (kLotusDateFmt.getD 2 []) tm0 "10/05/2020 14:30".toList).1.mday = 5 ∧
    (strptimeList (kLotusDateFmt.getD 8 []) tm0 "10/05/2020 02:30PM".toList).1.mon = 4 ∧
    (strptimeList (kLotusDateFmt.getD 8 []) tm0 "10/05/2020 02:30PM".toList).1.mday = 10 := by
  decide

/-- Claim C4, amended: entries 7, 9, 10, 11, 12 share their date layout
with entries 1, 3, 4, 5, 6 respectively (12-hour clock plus AM/PM marker
replacing the 24-hour time), and entry 2 has the layout of entry 1
(MM/DD/YYYY); but entry 8 deviates: its layout is DD/MM/YYYY, not the
MM/DD/YYYY of entry 2. -/
theorem c4_amended_thm :
    dateLayout (kLotusDateFmt.getD 7 []) = dateLayout (kLotusDateFmt.getD 1 []) ∧
    dateLayout (kLotusDateFmt.getD 9 []) = dateLayout (kLotusDateFmt.getD 3 []) ∧
    dateLayout (kLotusDateFmt.getD 10 []) = dateLayout (kLotusDateFmt.getD 4 []) ∧
    dateLayout (kLotusDateFmt.getD 11 []) = dateLayout (kLotusDateFmt.getD 5 []) ∧
    dateLayout (kLotusDateFmt.getD 12 []) = dateLayout (kLotusDateFmt.getD 6 []) ∧
    dateLayout (kLotusDateFmt.getD 2 []) = dateLayout (kLotusDateFmt.getD 1 []) ∧
    dateLayout (kLotusDateFmt.getD 8 []) ≠ dateLayout (kLotusDateFmt.getD 2 []) ∧
    dateLayout (kLotusDateFmt.getD 8 []) = [.dd, .lit '/', .m, .lit '/', .Y4] ∧
    (∀ i, i ∈ [1, 2, 3, 4, 5, 6] →
      (kLotusDateFmt.getD i []).filter timeDir = [.ws, .H, .lit ':', .M]) ∧
    (∀ i, i ∈ [7, 8, 9, 10, 11, 12] →
      (kLotusDateFmt.getD i []).filter timeDir = [.ws, .I, .lit ':', .M, .p]) := by
  decide

/-! ## Claim C6 -/

/-- Claim C6 (confirmed): parsing the link definition
"Due@|10/05/2020 14:30" with active format index 1 yields a date link
named "Due" with no shortname, no aliases and the ISO value
"2020-10-05T14:30:00Z". -/
theorem c6_confirmed :
    parse_item_category 1 "Due@|10/05/2020 14:30".toList =
      some ⟨.date, "Due".toList, none, none, some "2020-10-05T14:30:00Z".toList⟩ := by
  decide

/-! ## Claim C5 -/

/-- Claim C5, counterexample: in "a%%\" the trailing backslash is
unescaped under the %-escape rule (it is preceded by the two-character
literal escape "%%"), yet the code classifies by a single-character
lookbehind only — def[len-2] is '%' — so the definition is not classified
standard: it falls through every rule and fails (LinkFormatError). -/
theorem c5_counterexample :
    endsUnescapedPar '\\' "a%%\\".toList = true ∧
    classifyType "a%%\\".toList = none := by decide

/-- Claim C5, amended: classification is by the trailing character with a
single-character lookbehind ('%' immediately before the marker disables
it, even if that '%' is itself escaped), applied in order standard,
exclusive, unindexed, then the "@|" substring search; definitions shorter
than two characters always fail. -/
theorem c5_amended_thm (d : List Char) :
    (2 ≤ d.length →
      ((d.getD (d.length - 1) nulC = '\\' ∧ d.getD (d.length - 2) nulC ≠ '%') →
        classifyType d = some .standard) ∧
      ((d.getD (d.length - 1) nulC = '/' ∧ d.getD (d.length - 2) nulC ≠ '%') →
        classifyType d = some .exclusive) ∧
      (¬(d.getD (d.length - 1) nulC = '\\' ∧ d.getD (d.length - 2) nulC ≠ '%') →
        ¬(d.getD (d.length - 1) nulC = '/' ∧ d.getD (d.length - 2) nulC ≠ '%') →
        ¬(d.getD (d.length - 1) nulC = '|' ∧ d.getD (d.length - 2) nulC ≠ '%' ∧
          d.getD (d.length - 2) nulC ≠ '@' ∧ d.getD (d.length - 2) nulC ≠ '#') →
        ∀ i, findSub2 '@' '|' d = some i → classifyType d = some .date)) ∧
    (d.length < 2 → classifyType d = none) := by
  constructor
  · intro hlen
    have hnot : ¬ d.length < 2 := by omega
    refine ⟨?_, ?_, ?_⟩
    · intro hstd
      simp only [classifyType, classifyLink, if_neg hnot, if_pos hstd]
      rfl
    · intro hexc
      have hns : ¬(d.getD (d.length - 1) nulC = '\\' ∧ d.getD (d.length - 2) nulC ≠ '%') := by
        intro hcc
        rw [hexc.1] at hcc
        exact absurd hcc.1 (by decide)
      simp only [classifyType, classifyLink, if_neg hnot, if_neg hns, if_pos hexc]
      rfl
    · intro h1 h2 h3 i hfind
      simp only [classifyType, classifyLink, if_neg hnot, if_neg h1, if_neg h2, if_neg h3, hfind]
      rfl
  · intro hlt
    simp only [classifyType, classifyLink, if_pos hlt]
    rfl

/-- Claim C5, witness: "ab\" ends in a backslash not preceded by '%' and
is classified standard. -/
theorem c5_witness : classifyType "ab\\".toList = some LinkType.standard :=
  ((c5_amended_thm "ab\\".toList).1 (by decide)).1 (by decide)

/-! ## Claim C7 -/

/-- Claim C7 (confirmed): in state CATEGORY an r chunk appends its value
to the open category's attribute list and requires the immediately
following chunk to be tag ";" with no value; a failed read, any other
tag, or a present value is fatal, and on success the state stays
CATEGORY. -/
theorem c7_confirmed (cfg : Cfg) (v : Option (List Char)) (rest : List Char)
    (h : cfg.state = .category) :
    (read_stf_chunk rest = none → dispatch cfg ⟨some ['r'], v⟩ rest = none) ∧
    ∀ ch2 rest2, read_stf_chunk rest = some (ch2, rest2) →
      ((ch2.tag = some [';'] ∧ ch2.value = none →
         dispatch cfg ⟨some ['r'], v⟩ rest =
           some (updCat (fun c => { c with attributes := c.attributes ++ [v] }) cfg, rest2) ∧
         (updCat (fun c => { c with attributes := c.attributes ++ [v] }) cfg).state = .category) ∧
       (¬(ch2.tag = some [';'] ∧ ch2.value = none) →
         dispatch cfg ⟨some ['r'], v⟩ rest = none)) := by
  obtain ⟨st, df, rt⟩ := cfg
  replace h : st = .category := h
  subst h
  have e : dispatch ⟨.category, df, rt⟩ ⟨some ['r'], v⟩ rest =
      (match read_stf_chunk rest with
       | none => none
       | some (ch2, rest2) =>
         if ch2.tag = some [';'] ∧ ch2.value = none then
           some (updCat (fun c => { c with attributes := c.attributes ++ [v] })
                   ⟨.category, df, rt⟩, rest2)
         else none) := rfl
  constructor
  · intro hn
    rw [e, hn]
  · intro ch2 rest2 h2
    have e2 : dispatch ⟨.category, df, rt⟩ ⟨some ['r'], v⟩ rest =
        (if ch2.tag = some [';'] ∧ ch2.value = none then
           some (updCat (fun c => { c with attributes := c.attributes ++ [v] })
                   ⟨.category, df, rt⟩, rest2)
         else none) := by
      rw [e, h2]
    constructor
    · intro hok
      exact ⟨by rw [e2, if_pos hok], rfl⟩
    · intro hne
      rw [e2, if_neg hne]

/-- Claim C7, witness: applied to a concrete open category with the
lookahead stream "{;}". -/
theorem c7_witness :
    dispatch ⟨.category, 1, [⟨['t'], [⟨some ['W'], [], none, none, none⟩], []⟩]⟩
        ⟨some ['r'], some ['A']⟩ "{;}".toList =
      some (⟨.category, 1, [⟨['t'], [⟨some ['W'], [some ['A']], none, none, none⟩], []⟩]⟩, []) :=
  (((c7_confirmed ⟨.category, 1, [⟨['t'], [⟨some ['W'], [], none, none, none⟩], []⟩]⟩
      (some ['A']) "{;}".toList rfl).2 ⟨some [';'], none⟩ [] (by decide)).1 ⟨rfl, rfl⟩).1

/-! ## Claim C8 -/

/-- Claim C8 (confirmed): an STF header chunk arriving while a category,
a condition/action set, or an item is open (states CATEGORY,
CATEGORY_COND, CATEGORY_ACTIONS, ITEM) is always fatal: dispatch errx's
(GrammarError), so no open entity is ever silently closed. -/
theorem c8_confirmed (cfg : Cfg) (v : Option (List Char)) (rest : List Char)
    (h : cfg.state = .category ∨ cfg.state = .catCond ∨
         cfg.state = .catActions ∨ cfg.state = .item) :
    dispatch cfg ⟨some "STF".toList, v⟩ rest = none := by
  obtain ⟨st, df, rt⟩ := cfg
  cases st <;> first
    | rfl
    | (rcases h with h | h | h | h <;> exact BState.noConfusion h)

/-- Claim C8, witness: an STF header inside an open item is fatal. -/
theorem c8_witness :
    dispatch ⟨.item, 1, []⟩ ⟨some "STF".toList, none⟩ [] = none :=
  c8_confirmed ⟨.item, 1, []⟩ none [] (by decide)

/-! ## Claim C9 -/

/-- Claim C9, counterexample: for input "{}x{.}" the reader continues
non-fatally past the empty tag, but the resulting chunk's tag is ABSENT
(the C tag pointer stays NULL) — not the empty string the claim says the
builder dispatches on. -/
theorem c9_counterexample :
    read_stf_chunk "{}x{.}".toList = some (⟨none, some ['x']⟩, "{.}".toList) ∧
    (Chunk.mk none (some ['x'])).tag ≠ some "".toList := by decide

/-- Claim C9, amended: an empty tag name is non-fatal — the reader warns
and goes on reading the chunk's data — but the tag is left absent (NULL),
not set to the empty string; main then calls strcmp on that NULL pointer,
which is undefined behaviour in C (in this model the absent tag matches
no dispatch arm and is fatal). -/
theorem c9_amended_thm (rest : List Char) :
    read_stf_chunk ('{' :: '}' :: rest) = readData none [] rest := rfl

/-! ## Claim C10 -/

/-- Claim C10, counterexample: for the date value-portion "%;a" the
escape-removal loop's stale ';' check misfires: the code hands "" to the
normalizer, while the claimed clean left-to-right unescape-then-split
yields "a". -/
theorem c10_counterexample :
    cUnescapeExtract "%;a".toList = [] ∧
    specExtract "%;a".toList = ['a'] := by decide

/-- Claim C10, amended: on value-portions containing no '%' the loop's
result is the content after the last ';' that has a predecessor
character (a ';' at the very first position is never detected as a
delimiter), or the whole portion when there is no such ';'; in the
presence of '%' escapes the delimiter scan reads stale buffer positions
and deviates from the claimed left-to-right unescape. -/
theorem c10_amended_thm (v : List Char) (h : '%' ∉ v) :
    cUnescapeExtract v = amendedExtract v := by
  have hloop := cUnescapeLoop_noesc v h [] 0
  simp only [List.nil_append, List.length_nil, Nat.zero_add] at hloop
  simp only [cUnescapeExtract]
  rw [hloop]
  have htake : ((v ++ [nulC]).take v.length) = v := by
    simp
  simp only [htake]
  cases v with
  | nil => rfl
  | cons c t =>
    rw [sSpec_eq t 0 c 0]
    cases hl : lastSemiPos t with
    | some i => simp [amendedExtract, hl]
    | none => simp [amendedExtract, hl]

/-- Claim C10, witness: the amended theorem on the escape-free
value-portion "a;b", giving "b". -/
theorem c10_witness :
    cUnescapeExtract "a;b".toList = amendedExtract "a;b".toList :=
  c10_amended_thm "a;b".toList (by decide)

end Stfjson
